import Mathlib

/-!
Verification of the article indexing, caching and pagination engine
(`src/articles.rs`) against its natural-language specification.

Shallow embedding conventions:
* Rust `Arc<str>` / `String` text is modelled as `List Char` (`Str`);
  `Arc` sharing is a performance device with no observable semantics.
* `ArticleId = i32` is modelled as `Int`; no arithmetic is ever performed
  on ids (they are only parsed, compared and sorted), so overflow is moot.
* `DashMap` maps are modelled as association lists whose entry order is
  irrelevant to every claim (all observable orders pass through an
  explicit sort); `Mutex`-guarded values are modelled as plain fields.
* Filesystem I/O is abstracted as oracle inputs: the result of
  `fs::read_dir` on the root is an `Except IOError (List DirEntry)`
  parameter, and `ArticleStorage::load_article` (pure I/O plus the
  markdown render collaborator) is an oracle `Metainfo → Except LoadError
  Article` parameter.  All in-memory logic is translated faithfully.
-/

namespace Henkaiki

/-- Character-list model of Rust string data (`Arc<str>` / `String`). -/
abbrev Str := List Char

/-- ArticleId: `pub type ArticleId = i32;` -/
abbrev ArticleId := Int

/-- Relevant fields of `config::Config.mainconfig` (a static, pre-validated
settings object per the spec); threaded explicitly instead of the Rust
global `CONFIG`. -/
structure Config where
  sample_article : Bool
  markdown_to_html : Bool
deriving DecidableEq, Repr

/-- Metainfo: internal metadata descriptor for one article, as in
`struct Metainfo` of `articles.rs`. -/
structure Metainfo where
  id : ArticleId
  title : Str
  description : Str
  markdown_path : Str
  date : Nat
  tags : List Str
  keywords : List Str
deriving DecidableEq, Repr

/-- Article: full article with rendered content (`struct Article`). -/
structure Article where
  id : ArticleId
  title : Str
  description : Str
  content : Str
  date : Nat
  tags : List Str
  keywords : List Str
deriving DecidableEq, Repr

/-- ArticleSummary: article minus body content (`struct ArticleSummary`). -/
structure ArticleSummary where
  id : ArticleId
  title : Str
  description : Str
  date : Nat
  tags : List Str
  keywords : List Str
deriving DecidableEq, Repr

/-- CachedStatus: whether a fetched article came from the cache
(`enum CachedStatus`). -/
inductive CachedStatus where
  | cached
  | notCached
deriving DecidableEq, Repr

-- ===== ARTICLE INDEX =====

/-- ArticleIndex: `by_id: DashMap<ArticleId, Arc<Metainfo>>`,
`by_tag: DashMap<String, Vec<ArticleId>>`,
`sorted_ids: Arc<Mutex<Vec<ArticleId>>>`, modelled with association
lists for the two maps. -/
structure ArticleIndex where
  by_id : List (ArticleId × Metainfo)
  by_tag : List (Str × List ArticleId)
  sorted_ids : List ArticleId
deriving DecidableEq, Repr

/-- Empty index, as produced by `ArticleIndex::new`. -/
def ArticleIndex.emptyIndex : ArticleIndex :=
  { by_id := [], by_tag := [], sorted_ids := [] }

/-- Clear: `ArticleIndex::clear` empties all three structures. -/
def ArticleIndex.clear (_idx : ArticleIndex) : ArticleIndex :=
  ArticleIndex.emptyIndex

/-- Lookup in the `by_id` association list (model of `DashMap::get`). -/
def lookupId (id : ArticleId) : List (ArticleId × Metainfo) → Option Metainfo
  | [] => none
  | (i, m) :: rest => if i = id then some m else lookupId id rest

/-- Insert into the `by_id` association list (model of `DashMap::insert`:
replaces the value if the key exists, otherwise adds an entry). -/
def insertId (id : ArticleId) (m : Metainfo) :
    List (ArticleId × Metainfo) → List (ArticleId × Metainfo)
  | [] => [(id, m)]
  | (i, m') :: rest =>
    if i = id then (i, m) :: rest else (i, m') :: insertId id m rest

/-- Lookup in the `by_tag` association list; an absent tag reads as `[]`,
matching `get_ids_by_tag`'s `unwrap_or_default`. -/
def lookupTag (t : Str) : List (Str × List ArticleId) → List ArticleId
  | [] => []
  | (t', l) :: rest => if t' = t then l else lookupTag t rest

/-- Model of `self.by_tag.entry(tag.clone()).or_default().push(article_id)`:
append the id to the tag's vector, creating the entry if needed. -/
def pushTag (id : ArticleId) (t : Str) :
    List (Str × List ArticleId) → List (Str × List ArticleId)
  | [] => [(t, [id])]
  | (t', l) :: rest =>
    if t' = t then (t', l ++ [id]) :: rest else (t', l) :: pushTag id t rest

/-- Model of `ArticleIndex::add_metainfo`: insert into `by_id`, then push
the id onto `by_tag[tag]` for each tag of the descriptor. -/
def ArticleIndex.add_metainfo (idx : ArticleIndex) (m : Metainfo) : ArticleIndex :=
  { idx with
    by_id := insertId m.id m idx.by_id
    by_tag := m.tags.foldl (fun bt t => pushTag m.id t bt) idx.by_tag }

/-- Model of `ArticleIndex::sort_indices`: `sorted_ids` becomes the sorted
key set of `by_id`, and each `by_tag` vector is sorted.  Rust's
`sort_unstable` and `List.insertionSort` agree on the result for the
total order on ids. -/
def ArticleIndex.sort_indices (idx : ArticleIndex) : ArticleIndex :=
  { by_id := idx.by_id
    by_tag := idx.by_tag.map (fun e => (e.1, List.insertionSort (· ≤ ·) e.2))
    sorted_ids := List.insertionSort (· ≤ ·) (idx.by_id.map Prod.fst) }

/-- Model of `ArticleIndex::get_all_ids`. -/
def ArticleIndex.get_all_ids (idx : ArticleIndex) : List ArticleId :=
  idx.sorted_ids

/-- Model of `ArticleIndex::get_ids_by_tag`. -/
def ArticleIndex.get_ids_by_tag (idx : ArticleIndex) (t : Str) : List ArticleId :=
  lookupTag t idx.by_tag

/-- Model of `ArticleIndex::get_metainfo`. -/
def ArticleIndex.get_metainfo (idx : ArticleIndex) (id : ArticleId) : Option Metainfo :=
  lookupId id idx.by_id

-- ===== PAGINATOR =====

/-- Outcome of `Paginator::paginate`, including the possibility that the
slice expression `&data[start..end]` panics: Rust slicing panics when
`start > end` or `end > len`, which the `panicked` constructor records. -/
inductive PagResult (α : Type) where
  | panicked
  | outOfRange
  | ok (page : Option (List α))
deriving DecidableEq, Repr

/-- Model of `Paginator::compute_total_pages` with ideal (unbounded)
arithmetic: faithful to the source exactly while the intermediate sum
`total_items + max_per_page - 1` fits in `usize`, the region inside
which every theorem below uses it.  The release-mode wrap of that sum
beyond the bound is modelled separately by `compute_total_pages_usize`,
on which the page-count claim is settled. -/
def compute_total_pages (total_items max_per_page : Nat) : Nat :=
  if total_items = 0 ∨ max_per_page = 0 then 0
  else (total_items + max_per_page - 1) / max_per_page

/-- Size of `usize` on the 64-bit target: the wrap-around modulus of
release-mode arithmetic. -/
def USIZE : Nat := 2 ^ 64

/-- Model of `Paginator::compute_total_pages` with faithful 64-bit
`usize` arithmetic for `total_items + max_per_page - 1`: in a release
build the addition wraps modulo `2^64`, and the subtraction of 1 wraps
when the (wrapped) sum is 0 (a debug build panics at either overflow
instead of wrapping); the division itself cannot overflow. -/
def compute_total_pages_usize (total_items max_per_page : Nat) : Nat :=
  if total_items = 0 ∨ max_per_page = 0 then 0
  else (((total_items + max_per_page) % USIZE + (USIZE - 1)) % USIZE)
    / max_per_page

/-- Model of `Paginator::paginate`, faithful to the source including the
unguarded slice `&data[start..end]` (modelled via the explicit bounds
check that Rust performs at runtime, panicking on failure).  The
`start = page_number * max_per_page` product and the internal page
count use ideal `Nat` in place of `usize`; within the input regions the
theorems below assert (valid pages of an in-memory list, page size 0,
and the empty-collection panic) these stay well below `2^64`, where the
model and the program agree. -/
def paginate {α : Type} (data : List α) (max_per_page page_number : Nat) :
    PagResult α :=
  if max_per_page = 0 then .ok none
  else
    let total_items := data.length
    let total_pages := compute_total_pages total_items max_per_page
    if total_pages ≠ 0 ∧ page_number ≥ total_pages then .outOfRange
    else
      let start := page_number * max_per_page
      let stop := min (start + max_per_page) total_items
      if start ≤ stop ∧ stop ≤ total_items then
        .ok (some ((data.drop start).take (stop - start)))
      else .panicked

-- ===== ARTICLE CACHE =====

/-- LruCache: model of the `lru` crate's cache as used through
`ArticleCache`.  `entries` is kept most-recently-used first; `get`
promotes a hit to the front, `put` inserts (or updates) at the front and,
when a new key would exceed `cap`, evicts the tail (least recently used).
The crate's capacity is a `NonZeroUsize`, so `cap ≥ 1` in every reachable
state. -/
structure LruCache where
  cap : Nat
  entries : List (ArticleId × Article)
deriving DecidableEq, Repr

/-- Fresh cache of the given capacity (`LruCache::new`). -/
def LruCache.emptyCache (cap : Nat) : LruCache :=
  { cap := cap, entries := [] }

/-- Model of `ArticleCache::get` (hence `LruCache::get` + `cloned`): a hit
returns the value and promotes the entry to most-recently-used; a miss
leaves the cache unchanged. -/
def LruCache.get (c : LruCache) (k : ArticleId) : Option Article × LruCache :=
  match c.entries.find? (fun e => decide (e.1 = k)) with
  | none => (none, c)
  | some e =>
    (some e.2, { c with entries := e :: c.entries.filter (fun x => decide (x.1 ≠ k)) })

/-- Model of `ArticleCache::put` (`LruCache::put`): update-and-promote an
existing key, otherwise insert at the front, evicting the
least-recently-used entry when the cache is full. -/
def LruCache.put (c : LruCache) (k : ArticleId) (v : Article) : LruCache :=
  if c.entries.any (fun e => decide (e.1 = k)) then
    { c with entries := (k, v) :: c.entries.filter (fun e => decide (e.1 ≠ k)) }
  else if c.cap ≤ c.entries.length then
    { c with entries := (k, v) :: c.entries.dropLast }
  else
    { c with entries := (k, v) :: c.entries }

/-- Model of `ArticleCache::clear` (`LruCache::clear`). -/
def LruCache.clearCache (c : LruCache) : LruCache :=
  { c with entries := [] }

-- ===== SAMPLE ARTICLE =====

/-- Modelled from the spec: the body of the built-in sample item is
`include_str!("udhr.md")` rendered to HTML, but `udhr.md` is not under
`src/`; the spec only says the sample item is injected purely in memory,
and no claim inspects the content text, so it is modelled as an opaque
concrete string. -/
def sampleContent : Str :=
  "Universal Declaration of Human Rights sample body text".data

/-- Model of the `SAMPLE_ARTICLE` lazy static of `articles.rs`. -/
def sampleArticle : Article :=
  { id := 0
    title := "Universal Declaration of Human Rights".data
    description :=
      "The Universal Declaration of Human Rights is a seminal document ...".data
    content := sampleContent
    date := 19481210
    tags := ["Politics".data, "History".data]
    keywords := ["human rights".data, "united nations".data] }

/-- Sample descriptor built inside `Articles::load_index` when
`config.mainconfig.sample_article` is set. -/
def sampleMetainfo : Metainfo :=
  { id := sampleArticle.id
    title := sampleArticle.title
    description := sampleArticle.description
    markdown_path := "udhr.md".data
    date := sampleArticle.date
    tags := sampleArticle.tags
    keywords := sampleArticle.keywords }

-- ===== FILE STORAGE (I/O ABSTRACTION) =====

/-- Opaque I/O error token (the payload of `std::io::Error` is never
inspected by the engine, only propagated). -/
structure IOError where
  code : Nat
deriving DecidableEq, Repr

/-- Failure modes of `ArticleStorage::load_article` (missing directory,
missing markdown file, or a read error). -/
inductive LoadError where
  | dirMissing
  | bodyMissing
  | readFailed (e : IOError)
deriving DecidableEq, Repr

/-- One entry of `fs::read_dir(&self.source_dir)` as `scan_articles`
observes it: the `entry?` read may fail with an I/O error; otherwise the
entry either contributes a parsed descriptor (a directory whose numeric
name matches the `id` of its parseable `metainfo.toml`) or is silently
skipped (not a directory, non-numeric name, missing metainfo file, parse
failure, or id mismatch — all `continue` in the source). -/
inductive DirEntry where
  | errEntry (e : IOError)
  | skipped
  | item (m : Metainfo)
deriving DecidableEq, Repr

/-- Loop body of `ArticleStorage::scan_articles` over the entries of the
root directory: descriptors are added to the index as they are found; an
entry-level I/O error aborts the loop, keeping additions made so far. -/
def scan_entries (idx : ArticleIndex) :
    List DirEntry → Except IOError Unit × ArticleIndex
  | [] => (.ok (), idx)
  | .errEntry e :: _ => (.error e, idx)
  | .skipped :: rest => scan_entries idx rest
  | .item m :: rest => scan_entries (idx.add_metainfo m) rest

/-- Model of `ArticleStorage::scan_articles`: `fs::read_dir` on the root
either fails outright (the `?` on `fs::read_dir` — index untouched) or
yields a list of entries processed by `scan_entries`. -/
def scan_articles (idx : ArticleIndex)
    (fsRoot : Except IOError (List DirEntry)) :
    Except IOError Unit × ArticleIndex :=
  match fsRoot with
  | .error e => (.error e, idx)
  | .ok entries => scan_entries idx entries

-- ===== MAIN ARTICLES FACADE =====

/-- Mutable state of the `Articles` facade: the index and the shared LRU
cache (the `storage.source_dir` path only feeds the I/O oracles). -/
structure ArticlesState where
  index : ArticleIndex
  cache : LruCache
deriving DecidableEq, Repr

/-- Errors surfaced by `Articles::get_article` /
`load_article_from_filesystem`: the `anyhow!("Article with ID {} not
found")` case and propagated storage failures. -/
inductive GetError where
  | notFound (id : ArticleId)
  | loadFailed (e : LoadError)
deriving DecidableEq, Repr

/-- Model of `Articles::load_index`: clear the index, optionally insert
the sample descriptor, scan the root (an I/O failure propagates via `?`,
leaving the partially rebuilt index in place), then sort the indices. -/
def load_index (cfg : Config) (fsRoot : Except IOError (List DirEntry))
    (s : ArticlesState) : Except IOError Unit × ArticlesState :=
  let idx0 := s.index.clear
  let idx1 := if cfg.sample_article then idx0.add_metainfo sampleMetainfo else idx0
  match scan_articles idx1 fsRoot with
  | (.error e, idx2) => (.error e, { s with index := idx2 })
  | (.ok _, idx2) => (.ok (), { s with index := idx2.sort_indices })

/-- Model of `Articles::refresh_index` (it just calls `load_index`). -/
def refresh_index (cfg : Config) (fsRoot : Except IOError (List DirEntry))
    (s : ArticlesState) : Except IOError Unit × ArticlesState :=
  load_index cfg fsRoot s

/-- Model of `Articles::clear_cache`. -/
def clear_cache (s : ArticlesState) : ArticlesState :=
  { s with cache := s.cache.clearCache }

/-- Model of `Articles::load_article_from_filesystem`; the storage read
(`ArticleStorage::load_article`, pure I/O plus the render collaborator)
is abstracted as the oracle `loadArticle`. -/
def load_article_from_filesystem (cfg : Config)
    (loadArticle : Metainfo → Except LoadError Article)
    (s : ArticlesState) (id : ArticleId) : Except GetError Article :=
  match s.index.get_metainfo id with
  | none => .error (.notFound id)
  | some m =>
    if id = 0 ∧ cfg.sample_article then .ok sampleArticle
    else
      match loadArticle m with
      | .ok a => .ok a
      | .error e => .error (.loadFailed e)

/-- Model of `Articles::get_article`: sample short-circuit, then cache
(with LRU promotion), then filesystem load populating the cache. -/
def get_article (cfg : Config)
    (loadArticle : Metainfo → Except LoadError Article)
    (s : ArticlesState) (id : ArticleId) :
    Except GetError ((Article × CachedStatus) × ArticlesState) :=
  if id = 0 ∧ cfg.sample_article then .ok ((sampleArticle, .notCached), s)
  else
    match s.cache.get id with
    | (some a, c') => .ok ((a, .cached), { s with cache := c' })
    | (none, _) =>
      match load_article_from_filesystem cfg loadArticle s id with
      | .error e => .error e
      | .ok a => .ok ((a, .notCached), { s with cache := s.cache.put id a })

/-- Model of `Articles::build_summary`. -/
def build_summary (m : Metainfo) : ArticleSummary :=
  { id := m.id
    title := m.title
    description := m.description
    date := m.date
    tags := m.tags
    keywords := m.keywords }

/-- Model of `Articles::get_summaries_from_ids`: look each id up in
`by_id`, pushing a summary on a hit and silently skipping a miss. -/
def get_summaries_from_ids (idx : ArticleIndex) (ids : List ArticleId) :
    List ArticleSummary :=
  ids.foldl (fun results id =>
    match lookupId id idx.by_id with
    | some m => results ++ [build_summary m]
    | none => results) []

/-- Result type for the facade operations returning
`Result<Vec<ArticleSummary>>`, with the slice panic made explicit. -/
inductive OpResult (α : Type) where
  | panicked
  | pageOutOfRange
  | ok (val : α)
deriving DecidableEq, Repr

/-- Model of `Articles::list_article_summaries` (always `Ok` in the
source, hence a plain list here). -/
def list_article_summaries (idx : ArticleIndex) : List ArticleSummary :=
  get_summaries_from_ids idx idx.get_all_ids

/-- Model of `Articles::list_article_summaries_paginated`. -/
def list_article_summaries_paginated (idx : ArticleIndex)
    (max_per_page page_number : Nat) : OpResult (List ArticleSummary) :=
  match paginate idx.get_all_ids max_per_page page_number with
  | .panicked => .panicked
  | .outOfRange => .pageOutOfRange
  | .ok none => .ok []
  | .ok (some ids) => .ok (get_summaries_from_ids idx ids)

/-- Helper for the substring test: `startsWith q s` holds when `q` is an
initial segment of `s`. -/
def startsWith : Str → Str → Bool
  | [], _ => true
  | _ :: _, [] => false
  | a :: q, b :: s => decide (a = b) && startsWith q s

/-- Model of `str::contains(query)` on character lists: some suffix of
`s` starts with `q`. -/
def strContainsSub (s q : Str) : Bool :=
  (List.range (s.length + 1)).any (fun i => startsWith q (s.drop i))

/-- Match condition of `Articles::search_articles`:
`m.title.contains(query) || m.description.contains(query)`. -/
def matchesQuery (q : Str) (m : Metainfo) : Bool :=
  strContainsSub m.title q || strContainsSub m.description q

/-- Model of `Articles::search_articles` (always `Ok` in the source): scan
`get_all_ids` in order, look each id up, and push the summary of every
article whose title or description contains the query. -/
def search_articles (idx : ArticleIndex) (q : Str) : List ArticleSummary :=
  idx.get_all_ids.foldl (fun results id =>
    match lookupId id idx.by_id with
    | some m =>
      if matchesQuery q m then results ++ [build_summary m] else results
    | none => results) []

/-- Model of `Articles::search_articles_paginated`: paginate the full
search result, `.to_vec()` on the page slice. -/
def search_articles_paginated (idx : ArticleIndex) (q : Str)
    (max_per_page page_number : Nat) : OpResult (List ArticleSummary) :=
  match paginate (search_articles idx q) max_per_page page_number with
  | .panicked => .panicked
  | .outOfRange => .pageOutOfRange
  | .ok none => .ok []
  | .ok (some page) => .ok page

/-- Model of `Articles::get_search_article_page_count` (search cannot
fail, so the `Err` branch returning 0 is unreachable). -/
def get_search_article_page_count (idx : ArticleIndex) (q : Str)
    (max_per_page : Nat) : Nat :=
  compute_total_pages (search_articles idx q).length max_per_page

/-- Model of `Articles::list_article_summaries_by_tag`. -/
def list_article_summaries_by_tag (idx : ArticleIndex) (t : Str) :
    List ArticleSummary :=
  get_summaries_from_ids idx (idx.get_ids_by_tag t)

/-- Model of `Articles::list_article_summaries_by_tag_paginated`. -/
def list_article_summaries_by_tag_paginated (idx : ArticleIndex) (t : Str)
    (max_per_page page_number : Nat) : OpResult (List ArticleSummary) :=
  match paginate (idx.get_ids_by_tag t) max_per_page page_number with
  | .panicked => .panicked
  | .outOfRange => .pageOutOfRange
  | .ok none => .ok []
  | .ok (some ids) => .ok (get_summaries_from_ids idx ids)

/-- Complete in-memory rebuild with a descriptor list `D`: the
`clear`/`add_metainfo*`/`sort_indices` pipeline that a successful
`load_index` performs (see `load_index_ok_eq_rebuild`). -/
def rebuild (D : List Metainfo) : ArticleIndex :=
  (D.foldl ArticleIndex.add_metainfo ArticleIndex.emptyIndex).sort_indices

/-- Descriptors contributed by a scan's entry list, in scan order. -/
def entryItems : List DirEntry → List Metainfo
  | [] => []
  | .errEntry _ :: _ => []
  | .skipped :: rest => entryItems rest
  | .item m :: rest => m :: entryItems rest

-- ===== OCCURRENCE COUNTING =====

/-- Number of occurrences of `a` in `l` (the sense in which an id appears
"exactly once" in a tag's id list). -/
def occurrences {α : Type} [DecidableEq α] (a : α) (l : List α) : Nat :=
  l.countP (fun x => decide (x = a))

-- ===== FIXTURES FOR COUNTEREXAMPLES AND WITNESSES =====

/-- Configuration with the sample article disabled. -/
def cfgNoSample : Config := { sample_article := false, markdown_to_html := true }

/-- Configuration with the sample article enabled. -/
def cfgSample : Config := { sample_article := true, markdown_to_html := true }

/-- Concrete descriptor for the C1 counterexample. -/
def c1Meta : Metainfo :=
  { id := 5, title := "t".data, description := "d".data
    markdown_path := "a.md".data, date := 20240101, tags := [], keywords := [] }

/-- Prior state for the C1 counterexample: an index holding article 5. -/
def c1State : ArticlesState :=
  { index := { by_id := [(5, c1Meta)], by_tag := [], sorted_ids := [5] }
    cache := LruCache.emptyCache 2 }

/-- Fixture descriptor with one tag, for the search and rebuild
witnesses. -/
def wMeta1 : Metainfo :=
  { id := 1, title := "alpha rights".data, description := "xx".data
    markdown_path := "a.md".data, date := 20240101
    tags := ["T".data], keywords := [] }

/-- Second fixture descriptor. -/
def wMeta2 : Metainfo :=
  { id := 2, title := "beta".data, description := "yy".data
    markdown_path := "b.md".data, date := 20240102
    tags := [], keywords := [] }

/-- Well-formed fixture index over `wMeta1`, `wMeta2`. -/
def wIdx : ArticleIndex :=
  { by_id := [(1, wMeta1), (2, wMeta2)]
    by_tag := [("T".data, [1])]
    sorted_ids := [1, 2] }

/-- Skewed fixture index: `sorted_ids` lists id 6, which has no `by_id`
entry (as can happen transiently across rebuild generations). -/
def skewIdx : ArticleIndex :=
  { by_id := [(5, c1Meta)], by_tag := [], sorted_ids := [5, 6] }

/-- Fixture article for the C3 counterexample. -/
def c3Article : Article :=
  { id := 5, title := "t".data, description := "d".data, content := "c".data
    date := 20240101, tags := [], keywords := [] }

/-- State with article 5 in the cache but absent from the index (a stale
cache entry surviving a rebuild, which C8 shows is reachable). -/
def c3State : ArticlesState :=
  { index := ArticleIndex.emptyIndex, cache := ⟨2, [(5, c3Article)]⟩ }

/-- Storage oracle for the C3 counterexample (never consulted). -/
def c3Store : Metainfo → Except LoadError Article :=
  fun _ => .error .bodyMissing

-- ===== SUPPORTING LEMMAS: PAGINATION ARITHMETIC =====

/-- Unfolding of `compute_total_pages` for a non-empty collection. -/
lemma compute_total_pages_pos (t s : Nat) (ht : 0 < t) (hs : 0 < s) :
    compute_total_pages t s = (t - 1) / s + 1 := by
  unfold compute_total_pages
  rw [if_neg (by omega)]
  have h : t + s - 1 = (t - 1) + s := by omega
  rw [h, Nat.add_div_right _ hs]

/-- Lower bound: the computed page count holds all the items. -/
lemma le_compute_total_pages_mul (t s : Nat) (hs : 0 < s) :
    t ≤ compute_total_pages t s * s := by
  rcases Nat.eq_zero_or_pos t with ht | ht
  · simp [ht, compute_total_pages]
  · rw [compute_total_pages_pos t s ht hs]
    have hdm := Nat.div_add_mod (t - 1) s
    have hml := Nat.mod_lt (t - 1) hs
    rw [Nat.add_mul, Nat.one_mul, Nat.mul_comm]
    generalize hA : s * ((t - 1) / s) = A at hdm
    omega

/-- Minimality: any page count that holds all the items is at least the
computed one. -/
lemma compute_total_pages_le (t s c : Nat) (hs : 0 < s) (h : t ≤ c * s) :
    compute_total_pages t s ≤ c := by
  rcases Nat.eq_zero_or_pos t with ht | ht
  · simp [ht, compute_total_pages]
  · rw [compute_total_pages_pos t s ht hs]
    have hlt : (t - 1) / s < c := by
      rw [Nat.div_lt_iff_lt_mul hs]
      omega
    omega

/-- A valid page index starts strictly inside the collection. -/
lemma start_lt_of_lt_pages (n s p : Nat) (hs : 0 < s)
    (hp : p < compute_total_pages n s) : p * s < n := by
  by_contra hcon
  exact absurd (compute_total_pages_le n s p hs (by omega)) (by omega)

/-- Behaviour of `paginate` on a valid page of a non-empty collection:
it returns exactly the slice `[p*size, min((p+1)*size, len))`. -/
lemma paginate_valid_page {α : Type} (data : List α) (s p : Nat) (hs : 0 < s)
    (hp : p < compute_total_pages data.length s) :
    paginate data s p = .ok (some ((data.drop (p * s)).take s)) := by
  have hstart : p * s < data.length := start_lt_of_lt_pages data.length s p hs hp
  unfold paginate
  rw [if_neg (by omega)]
  simp only
  rw [if_neg (by omega), if_pos (by omega)]
  congr 1
  congr 1
  have hlen : (data.drop (p * s)).length = data.length - p * s :=
    List.length_drop _ _
  rcases Nat.le_total (p * s + s) data.length with hle | hle
  · have h1 : min (p * s + s) data.length = p * s + s := by omega
    rw [h1]
    congr 1
    omega
  · have h1 : min (p * s + s) data.length = data.length := by omega
    rw [h1]
    rw [List.take_of_length_le (by omega), List.take_of_length_le (by omega)]

-- ===== C8: refresh_index NEVER TOUCHES THE CACHE =====

/-- C8: `refresh_index()` never modifies the Cache: whatever the prior
state and whatever the scan outcome (success, root-level failure, or
entry-level failure), the cache contents after the call are identical to
the contents before. -/
theorem refresh_index_preserves_cache (cfg : Config)
    (fsRoot : Except IOError (List DirEntry)) (s : ArticlesState) :
    (refresh_index cfg fsRoot s).2.cache = s.cache := by
  unfold refresh_index load_index
  dsimp only
  split <;> rfl

-- ===== C1: ROOT SCAN FAILURE CLEARS THE INDEX (claim corrected) =====

/-- C1 (counterexample): when scanning the root fails, the error is
surfaced, but the Index does NOT retain its previous contents — `by_id`
has been cleared, refuting the claim at this concrete input. -/
theorem refresh_index_root_error_clears :
    (refresh_index cfgNoSample (.error ⟨7⟩) c1State).1 = .error ⟨7⟩ ∧
    (refresh_index cfgNoSample (.error ⟨7⟩) c1State).2.index ≠ c1State.index := by
  constructor
  · rfl
  · intro h
    have hby : (refresh_index cfgNoSample (.error ⟨7⟩) c1State).2.index.by_id
        = c1State.index.by_id := by rw [h]
    exact absurd hby (by decide)

/-- C1 (amended): an I/O failure on the root scan is surfaced to the
caller, but the Index has already been cleared by then: it retains
nothing of its previous contents, holding only the sample descriptor when
that is configured (with `sorted_ids` left empty, sorting being skipped),
while the cache is untouched. -/
theorem refresh_index_root_error_spec (cfg : Config) (e : IOError)
    (s : ArticlesState) :
    refresh_index cfg (.error e) s =
      (.error e,
        { s with index :=
            if cfg.sample_article then
              ArticleIndex.emptyIndex.add_metainfo sampleMetainfo
            else ArticleIndex.emptyIndex }) := by
  cases hc : cfg.sample_article <;>
    simp [refresh_index, load_index, scan_articles, ArticleIndex.clear, hc]

-- ===== C4: PAGINATION OF AN EMPTY COLLECTION PANICS (code bug) =====

/-- C4 (code evaluated at the failing input): with an empty collection
(`total_pages == 0`) and page index 1, `Paginator::paginate` reaches the
slice `&data[3..0]`, which panics instead of returning an empty page; the
panic propagates through the facade listing operation. -/
theorem paginate_empty_nonzero_page_panics :
    paginate ([] : List ArticleId) 3 1 = PagResult.panicked ∧
    list_article_summaries_paginated ArticleIndex.emptyIndex 3 1
      = OpResult.panicked := by
  constructor <;> rfl

-- ===== C5: PAGE COUNT IS THE CEILING (claim corrected) =====

/-- Inside the representable region the wrapping page count agrees with
the ideal one. -/
lemma compute_total_pages_usize_eq (t s : Nat) (ht : 0 < t) (hs : 0 < s)
    (hno : t + s ≤ USIZE) :
    compute_total_pages_usize t s = compute_total_pages t s := by
  have hU : USIZE = 18446744073709551616 := by norm_num [USIZE]
  rw [hU] at hno
  unfold compute_total_pages_usize compute_total_pages
  rw [if_neg (by omega), if_neg (by omega)]
  have hnum : ((t + s) % USIZE + (USIZE - 1)) % USIZE = t + s - 1 := by
    rw [hU]
    omega
  rw [hnum]

/-- C5 (counterexample): at 7 items and page size `2^64 - 1` — both
representable `usize` values, the page size reachable straight from the
`limit` query parameter — the release-mode computation wraps and yields
0 pages, which do not hold the 7 items (the true ceiling is 1),
refuting the claim at a concrete input. -/
theorem compute_total_pages_overflow_counterexample :
    compute_total_pages_usize 7 (2 ^ 64 - 1) = 0 ∧
    ¬(7 ≤ compute_total_pages_usize 7 (2 ^ 64 - 1) * (2 ^ 64 - 1)) := by
  constructor
  · norm_num [compute_total_pages_usize, USIZE]
  · norm_num [compute_total_pages_usize, USIZE]

/-- C5 (amended): whenever the intermediate sum stays representable
(`total_items + page_size ≤ 2^64`), the computed page count equals
`ceil(total_items / page_size)` — the least count whose pages hold all
items — and it is 0 for an empty collection; beyond that bound the
release-mode addition wraps and the result is not the ceiling (a debug
build panics instead).  Concretely, 7 items at page size 3 give 3 pages
and page 2 holds exactly the last item. -/
theorem compute_total_pages_is_ceil_usize (t s : Nat) (hs : 0 < s)
    (hno : t + s ≤ USIZE) :
    (t ≤ compute_total_pages_usize t s * s ∧
      ∀ c, t ≤ c * s → compute_total_pages_usize t s ≤ c) ∧
    compute_total_pages_usize 0 s = 0 ∧
    compute_total_pages_usize 7 3 = 3 ∧
    paginate ([1, 2, 3, 4, 5, 6, 7] : List ArticleId) 3 2 = .ok (some [7]) := by
  refine ⟨?_, ?_, ?_, ?_⟩
  · rcases Nat.eq_zero_or_pos t with rfl | ht
    · exact ⟨by simp [compute_total_pages_usize], fun c _ => by
        simp [compute_total_pages_usize]⟩
    · rw [compute_total_pages_usize_eq t s ht hs hno]
      exact ⟨le_compute_total_pages_mul t s hs,
        fun c hc => compute_total_pages_le t s c hs hc⟩
  · simp [compute_total_pages_usize]
  · norm_num [compute_total_pages_usize, USIZE]
  · rfl

/-- Witness for C5 at `t = 7`, `s = 3`. -/
theorem compute_total_pages_is_ceil_usize_witness :
    (0 < 3 ∧ 7 + 3 ≤ USIZE ∧ 7 ≤ compute_total_pages_usize 7 3 * 3) ∧
    compute_total_pages_usize 7 3 = 3 :=
  ⟨⟨by decide, by norm_num [USIZE],
      (compute_total_pages_is_ceil_usize 7 3 (by decide)
        (by norm_num [USIZE])).1.1⟩,
    (compute_total_pages_is_ceil_usize 7 3 (by decide)
      (by norm_num [USIZE])).2.2.1⟩

-- ===== SUPPORTING LEMMAS: LRU CACHE =====

/-- Folding `put` never changes the capacity. -/
lemma foldl_put_cap (v : ArticleId → Article) :
    ∀ (ids : List ArticleId) (c : LruCache),
      (ids.foldl (fun c i => c.put i (v i)) c).cap = c.cap := by
  intro ids
  induction ids with
  | nil => intro c; rfl
  | cons i rest ih =>
    intro c
    rw [List.foldl_cons, ih]
    unfold LruCache.put
    split
    · rfl
    · split <;> rfl

/-- Shape of a cache built by inserting distinct fresh ids into an empty
cache: the entries are the most recent `cap` insertions, newest first. -/
lemma foldl_put_fresh (cap : Nat) (hcap : 1 ≤ cap) (v : ArticleId → Article) :
    ∀ ids : List ArticleId, ids.Nodup →
      (ids.foldl (fun c i => c.put i (v i)) (LruCache.emptyCache cap)).entries
        = ((ids.map (fun i => (i, v i))).reverse).take cap := by
  intro ids
  induction ids using List.reverseRecOn with
  | nil => intro _; simp [LruCache.emptyCache]
  | append_singleton l a ih =>
    intro hnd
    have hl : l.Nodup := hnd.of_append_left
    have ha : a ∉ l := by
      intro hmem
      have := List.disjoint_of_nodup_append hnd
      exact this hmem (by simp)
    have hE := ih hl
    rw [List.foldl_append]
    simp only [List.foldl_cons, List.foldl_nil]
    set C := l.foldl (fun c i => c.put i (v i)) (LruCache.emptyCache cap) with hC
    have hcapC : C.cap = cap := foldl_put_cap v l (LruCache.emptyCache cap)
    have hkeys : ∀ e ∈ C.entries, e.1 ∈ l := by
      rw [hE]
      intro e he
      have he2 : e ∈ (l.map (fun i => (i, v i))).reverse :=
        List.mem_of_mem_take he
      rw [List.mem_reverse] at he2
      obtain ⟨i, hi, hfe⟩ := List.mem_map.mp he2
      rw [← hfe]
      exact hi
    have hany : C.entries.any (fun e => decide (e.1 = a)) = false := by
      rw [List.any_eq_false]
      intro e he
      simp only [decide_eq_true_eq]
      intro hcon
      exact ha (hcon ▸ hkeys e he)
    have hlenE : C.entries.length = min cap l.length := by
      rw [hE, List.length_take, List.length_reverse, List.length_map]
    unfold LruCache.put
    rw [hany]
    simp only [Bool.false_eq_true, if_false, hcapC]
    rcases Nat.lt_or_ge l.length cap with hcl | hcl
    · rw [if_neg (by omega)]
      have hEfull : C.entries = (l.map (fun i => (i, v i))).reverse := by
        rw [hE, List.take_of_length_le
          (by rw [List.length_reverse, List.length_map]; omega)]
      rw [hEfull, List.map_append, List.reverse_append]
      simp only [List.map_cons, List.map_nil, List.reverse_cons, List.reverse_nil,
        List.nil_append, List.singleton_append]
      rw [List.take_of_length_le]
      simp only [List.length_cons, List.length_reverse, List.length_map]
      omega
    · rw [if_pos (by omega)]
      have hrevlen : (l.map (fun i => (i, v i))).reverse.length = l.length := by
        rw [List.length_reverse, List.length_map]
      have hdl : C.entries.dropLast
          = (l.map (fun i => (i, v i))).reverse.take (cap - 1) := by
        rw [hE, List.dropLast_eq_take, List.length_take, hrevlen]
        rw [List.take_take]
        congr 1
        omega
      rw [hdl]
      rw [List.map_append, List.reverse_append]
      simp only [List.map_cons, List.map_nil, List.reverse_cons, List.reverse_nil,
        List.nil_append, List.singleton_append]
      rw [show cap = (cap - 1) + 1 by omega, List.take_succ_cons,
        Nat.add_sub_cancel]

/-- A `get` on the key sitting at the front of the cache hits it. -/
lemma get_head (cap : Nat) (k : ArticleId) (v : Article)
    (rest : List (ArticleId × Article)) :
    (LruCache.get ⟨cap, (k, v) :: rest⟩ k).1 = some v := by
  unfold LruCache.get
  simp [List.find?_cons]

-- ===== C6: CACHE ROUND-TRIP, LRU EVICTION, PROMOTION =====

/-- C6: the cache satisfies the LRU contract: `put` then `get` on the
same id returns the stored value; `clear` removes it; a `get` hit
promotes the accessed entry to most-recently-used (the front); and
inserting `capacity + 1` distinct ids into an empty cache leaves exactly
`capacity` entries with the first-inserted (least-recently-accessed) id
absent. -/
theorem articleCache_lru_spec :
    (∀ (c : LruCache) (k : ArticleId) (a : Article),
      ((c.put k a).get k).1 = some a) ∧
    (∀ (c : LruCache) (k : ArticleId), (c.clearCache.get k).1 = none) ∧
    (∀ (c : LruCache) (k : ArticleId) (a : Article),
      (c.get k).1 = some a → ((c.get k).2).entries.head? = some (k, a)) ∧
    (∀ (cap : Nat) (ids : List ArticleId) (v : ArticleId → Article),
      1 ≤ cap → ids.length = cap + 1 → ids.Nodup →
      (ids.foldl (fun c i => c.put i (v i)) (LruCache.emptyCache cap)).entries.length
          = cap ∧
      ∀ i₀ rest, ids = i₀ :: rest →
        ((ids.foldl (fun c i => c.put i (v i)) (LruCache.emptyCache cap)).get i₀).1
          = none) := by
  refine ⟨?_, ?_, ?_, ?_⟩
  · intro c k a
    unfold LruCache.put
    split
    · exact get_head _ _ _ _
    · split
      · exact get_head _ _ _ _
      · exact get_head _ _ _ _
  · intro c k
    rfl
  · intro c k a h
    unfold LruCache.get at h ⊢
    cases hf : c.entries.find? (fun e => decide (e.1 = k)) with
    | none => rw [hf] at h; simp at h
    | some e =>
      obtain ⟨e1, e2⟩ := e
      have hp := List.find?_some hf
      simp only [decide_eq_true_eq] at hp
      rw [hf] at h
      dsimp only at h ⊢
      injection h with h2
      subst hp
      subst h2
      rfl
  · intro cap ids v hcap hlen hnd
    have hsh := foldl_put_fresh cap hcap v ids hnd
    constructor
    · rw [hsh, List.length_take, List.length_reverse, List.length_map]
      omega
    · intro i₀ rest hids
      subst hids
      have hi0 : i₀ ∉ rest := by
        rw [List.nodup_cons] at hnd
        exact hnd.1
      have hrlen : (rest.map (fun i => (i, v i))).reverse.length = cap := by
        rw [List.length_reverse, List.length_map]
        simpa using hlen
      have hentries :
          ((i₀ :: rest).foldl (fun c i => c.put i (v i))
            (LruCache.emptyCache cap)).entries
            = (rest.map (fun i => (i, v i))).reverse := by
        rw [hsh]
        simp only [List.map_cons, List.reverse_cons]
        exact List.take_left' hrlen
      unfold LruCache.get
      rw [hentries]
      have hnone : (rest.map (fun i => (i, v i))).reverse.find?
          (fun e => decide (e.1 = i₀)) = none := by
        rw [List.find?_eq_none]
        intro e he
        rw [List.mem_reverse] at he
        obtain ⟨i, hi, hfe⟩ := List.mem_map.mp he
        simp only [decide_eq_true_eq]
        intro hcon
        rw [← hfe] at hcon
        exact hi0 (hcon ▸ hi)
      rw [hnone]

/-- Witness for C6: round-trip at capacity 1, and eviction with ids
`[1, 2]` into a capacity-1 cache. -/
theorem articleCache_lru_spec_witness :
    ((((LruCache.emptyCache 1).put 1 sampleArticle).get 1).1 = some sampleArticle) ∧
    (([1, 2] : List ArticleId).foldl
        (fun c i => c.put i ((fun _ => sampleArticle) i))
        (LruCache.emptyCache 1)).entries.length = 1 :=
  ⟨articleCache_lru_spec.1 (LruCache.emptyCache 1) 1 sampleArticle,
    (articleCache_lru_spec.2.2.2 1 [1, 2] (fun _ => sampleArticle)
      (by decide) (by decide) (by decide)).1⟩

-- ===== SUPPORTING LEMMAS: SUBSTRING SEARCH =====

/-- Characterisation of `startsWith`: it decides the initial-segment
relation. -/
lemma startsWith_iff (q : Str) : ∀ s : Str,
    startsWith q s = true ↔ ∃ r, s = q ++ r := by
  induction q with
  | nil =>
    intro s
    simp only [startsWith, List.nil_append, true_iff]
    exact ⟨s, rfl⟩
  | cons a q ih =>
    intro s
    cases s with
    | nil =>
      simp only [startsWith, List.cons_append]
      constructor
      · intro h; exact absurd h (by simp)
      · rintro ⟨r, h⟩; exact absurd h (by simp)
    | cons b s =>
      simp only [startsWith, Bool.and_eq_true, decide_eq_true_eq, ih,
        List.cons_append]
      constructor
      · rintro ⟨rfl, r, rfl⟩; exact ⟨r, rfl⟩
      · rintro ⟨r, h⟩
        injection h with h1 h2
        exact ⟨h1.symm, r, h2⟩

/-- Characterisation of the substring test `strContainsSub` (the model of
`str::contains`): it holds exactly when the query occurs contiguously
inside the string. -/
lemma strContainsSub_iff (s q : Str) :
    strContainsSub s q = true ↔ ∃ t₁ t₂, s = t₁ ++ q ++ t₂ := by
  unfold strContainsSub
  rw [List.any_eq_true]
  constructor
  · rintro ⟨i, _, hsw⟩
    rw [startsWith_iff] at hsw
    obtain ⟨r, hr⟩ := hsw
    refine ⟨s.take i, r, ?_⟩
    conv_lhs => rw [← List.take_append_drop i s]
    rw [hr, List.append_assoc]
  · rintro ⟨t₁, t₂, rfl⟩
    refine ⟨t₁.length, ?_, ?_⟩
    · rw [List.mem_range]
      simp only [List.append_assoc, List.length_append]
      omega
    · rw [startsWith_iff]
      refine ⟨t₂, ?_⟩
      rw [List.append_assoc, List.drop_left]

/-- Every string contains the empty string. -/
lemma strContainsSub_nil (s : Str) : strContainsSub s [] = true :=
  (strContainsSub_iff s []).mpr ⟨[], s, by simp⟩

/-- Unfolded form of the query match condition of `search_articles`. -/
lemma matchesQuery_iff (q : Str) (m : Metainfo) :
    matchesQuery q m = true ↔
      (∃ t₁ t₂, m.title = t₁ ++ q ++ t₂) ∨
      (∃ t₁ t₂, m.description = t₁ ++ q ++ t₂) := by
  unfold matchesQuery
  rw [Bool.or_eq_true, strContainsSub_iff, strContainsSub_iff]

-- ===== SUPPORTING LEMMAS: LOOP-TO-FILTERMAP CHARACTERISATIONS =====

/-- The push-loop of `search_articles` is the `filterMap` of its body. -/
lemma search_articles_eq_filterMap (idx : ArticleIndex) (q : Str) :
    search_articles idx q = idx.get_all_ids.filterMap (fun id =>
      match lookupId id idx.by_id with
      | some m => if matchesQuery q m then some (build_summary m) else none
      | none => none) := by
  unfold search_articles
  suffices h : ∀ (ids : List ArticleId) (acc : List ArticleSummary),
      ids.foldl (fun results id =>
        match lookupId id idx.by_id with
        | some m =>
          if matchesQuery q m then results ++ [build_summary m] else results
        | none => results) acc
      = acc ++ ids.filterMap (fun id =>
          match lookupId id idx.by_id with
          | some m =>
            if matchesQuery q m then some (build_summary m) else none
          | none => none) by
    simpa using h idx.get_all_ids []
  intro ids
  induction ids with
  | nil => intro acc; simp
  | cons i rest ih =>
    intro acc
    rw [List.foldl_cons, List.filterMap_cons]
    cases hm : lookupId i idx.by_id with
    | none => rw [ih]
    | some m =>
      by_cases hq : matchesQuery q m
      · simp only [hq, if_true, ih, List.append_assoc, List.singleton_append]
      · simp only [hq, Bool.false_eq_true, if_false, ih]

/-- The push-loop of `get_summaries_from_ids` is the `filterMap` of its
body. -/
lemma get_summaries_eq_filterMap (idx : ArticleIndex) (ids : List ArticleId) :
    get_summaries_from_ids idx ids
      = ids.filterMap (fun id => (lookupId id idx.by_id).map build_summary) := by
  unfold get_summaries_from_ids
  suffices h : ∀ (l : List ArticleId) (acc : List ArticleSummary),
      l.foldl (fun results id =>
        match lookupId id idx.by_id with
        | some m => results ++ [build_summary m]
        | none => results) acc
      = acc ++ l.filterMap (fun id => (lookupId id idx.by_id).map build_summary) by
    simpa using h ids []
  intro l
  induction l with
  | nil => intro acc; simp
  | cons i rest ih =>
    intro acc
    rw [List.foldl_cons, List.filterMap_cons]
    cases hm : lookupId i idx.by_id with
    | none => rw [ih]; rfl
    | some m =>
      simp only [Option.map_some', ih, List.append_assoc, List.singleton_append]

/-- The ids of the search result are the matching ids, in index order,
provided every listed id resolves in `by_id` to a descriptor carrying
that id. -/
lemma search_ids (idx : ArticleIndex) (q : Str) :
    ∀ l : List ArticleId,
      (∀ id ∈ l, (lookupId id idx.by_id).map Metainfo.id = some id) →
      (l.filterMap (fun id =>
        match lookupId id idx.by_id with
        | some m => if matchesQuery q m then some (build_summary m) else none
        | none => none)).map (fun sm => sm.id)
      = l.filter (fun id =>
          match lookupId id idx.by_id with
          | some m => matchesQuery q m
          | none => false) := by
  intro l
  induction l with
  | nil => intro _; rfl
  | cons i rest ih =>
    intro h1
    have hi := h1 i (by simp)
    obtain ⟨m, hm, hmid⟩ := Option.map_eq_some'.mp hi
    rw [List.filterMap_cons, List.filter_cons, hm]
    have hrest := ih (fun id hid => h1 id (by simp [hid]))
    by_cases hq : matchesQuery q m
    · simp only [hq, if_true, List.map_cons, hrest]
      rw [show (build_summary m).id = i from hmid]
    · simp only [hq, Bool.false_eq_true, if_false, hrest]

-- ===== C7: SEARCH SEMANTICS AND PAGINATED SEARCH =====

/-- C7: on an index whose id list resolves consistently in `by_id`
(which every completed rebuild produces), `search_articles` returns
exactly the summaries of articles whose title or description contains
the query as a contiguous (case-sensitive) substring, in ascending id
order; and `search_articles_paginated` is the Paginator applied to the
full search result: on every valid page it returns exactly the
corresponding slice of the search result, and page size 0 yields `[]`. -/
theorem search_articles_spec (idx : ArticleIndex) (q : Str)
    (h1 : ∀ id ∈ idx.get_all_ids,
      (lookupId id idx.by_id).map Metainfo.id = some id)
    (h2 : idx.get_all_ids.Sorted (· < ·)) :
    ((search_articles idx q).map (fun sm => sm.id)).Sorted (· < ·) ∧
    (∀ sm, sm ∈ search_articles idx q ↔
      ∃ id ∈ idx.get_all_ids, ∃ m, lookupId id idx.by_id = some m ∧
        sm = build_summary m ∧
        ((∃ t₁ t₂, m.title = t₁ ++ q ++ t₂) ∨
          (∃ t₁ t₂, m.description = t₁ ++ q ++ t₂))) ∧
    (∀ mp p, 0 < mp →
      p < compute_total_pages (search_articles idx q).length mp →
      search_articles_paginated idx q mp p
        = .ok (((search_articles idx q).drop (p * mp)).take mp)) ∧
    (∀ p, search_articles_paginated idx q 0 p = .ok []) := by
  refine ⟨?_, ?_, ?_, ?_⟩
  · rw [search_articles_eq_filterMap, search_ids idx q idx.get_all_ids h1]
    exact List.Pairwise.filter _ h2
  · intro sm
    rw [search_articles_eq_filterMap, List.mem_filterMap]
    constructor
    · rintro ⟨id, hid, hg⟩
      cases hm : lookupId id idx.by_id with
      | none => rw [hm] at hg; exact absurd hg (by simp)
      | some m =>
        rw [hm] at hg
        dsimp only at hg
        by_cases hq : matchesQuery q m
        · rw [if_pos hq] at hg
          injection hg with hg
          exact ⟨id, hid, m, hm, hg.symm, (matchesQuery_iff q m).mp hq⟩
        · rw [if_neg hq] at hg
          exact absurd hg (by simp)
    · rintro ⟨id, hid, m, hm, rfl, hor⟩
      refine ⟨id, hid, ?_⟩
      rw [hm]
      dsimp only
      rw [if_pos ((matchesQuery_iff q m).mpr hor)]
  · intro mp p hmp hp
    unfold search_articles_paginated
    rw [paginate_valid_page _ mp p hmp hp]
  · intro p
    rfl

/-- Witness for C7 on the fixture index with query "rights". -/
theorem search_articles_spec_witness :
    ((∀ id ∈ wIdx.get_all_ids,
        (lookupId id wIdx.by_id).map Metainfo.id = some id) ∧
      wIdx.get_all_ids.Sorted (· < ·)) ∧
    ((search_articles wIdx "rights".data).map (fun sm => sm.id)).Sorted (· < ·) :=
  ⟨⟨by decide, by decide⟩,
    (search_articles_spec wIdx "rights".data (by decide) (by decide)).1⟩

-- ===== C9: EMPTY QUERY RETURNS EVERYTHING =====

/-- C9: with the empty string as query, search matches every id of the
index (the empty string is a substring of every title), returning one
summary per listed id in the index's ascending order; search is total,
so the empty query is never an error. -/
theorem search_empty_query (idx : ArticleIndex)
    (h1 : ∀ id ∈ idx.get_all_ids,
      (lookupId id idx.by_id).map Metainfo.id = some id) :
    (search_articles idx ([] : Str)).map (fun sm => sm.id)
      = idx.get_all_ids := by
  rw [search_articles_eq_filterMap, search_ids idx [] idx.get_all_ids h1]
  apply List.filter_eq_self.mpr
  intro id hid
  obtain ⟨m, hm, _⟩ := Option.map_eq_some'.mp (h1 id hid)
  rw [hm]
  dsimp only
  unfold matchesQuery
  rw [strContainsSub_nil]
  rfl

/-- Witness for C9 on the fixture index. -/
theorem search_empty_query_witness :
    (∀ id ∈ wIdx.get_all_ids,
      (lookupId id wIdx.by_id).map Metainfo.id = some id) ∧
    (search_articles wIdx ([] : Str)).map (fun sm => sm.id)
      = wIdx.get_all_ids :=
  ⟨by decide, search_empty_query wIdx (by decide)⟩

-- ===== C10: MISSING by_id ENTRIES ARE SILENTLY OMITTED =====

/-- C10: summary listing silently omits ids without a `by_id` entry and
never fails for that reason: the result never exceeds the id count,
removing an unresolvable id from the id list leaves the result
unchanged, every valid page is served as `.ok` of the summaries of its
id slice, and on the skewed fixture a page whose id slice has two ids
yields a single summary. -/
theorem summaries_silently_omit :
    (∀ (idx : ArticleIndex) (ids : List ArticleId),
      (get_summaries_from_ids idx ids).length ≤ ids.length) ∧
    (∀ (idx : ArticleIndex) (ids1 ids2 : List ArticleId) (id : ArticleId),
      lookupId id idx.by_id = none →
      get_summaries_from_ids idx (ids1 ++ id :: ids2)
        = get_summaries_from_ids idx (ids1 ++ ids2)) ∧
    (∀ (idx : ArticleIndex) (mp p : Nat), 0 < mp →
      p < compute_total_pages idx.get_all_ids.length mp →
      list_article_summaries_paginated idx mp p
        = .ok (get_summaries_from_ids idx
            ((idx.get_all_ids.drop (p * mp)).take mp))) ∧
    (list_article_summaries_paginated skewIdx 2 0 = .ok [build_summary c1Meta] ∧
      paginate skewIdx.get_all_ids 2 0 = .ok (some [5, 6])) := by
  refine ⟨?_, ?_, ?_, by decide, by decide⟩
  · intro idx ids
    rw [get_summaries_eq_filterMap]
    exact List.length_filterMap_le _ _
  · intro idx ids1 ids2 id hnone
    rw [get_summaries_eq_filterMap, get_summaries_eq_filterMap,
      List.filterMap_append, List.filterMap_append, List.filterMap_cons,
      hnone]
    rfl
  · intro idx mp p hmp hp
    unfold list_article_summaries_paginated
    rw [paginate_valid_page _ mp p hmp hp]

/-- Witness for C10: dropping the unresolvable id 6 does not change the
summaries on the skewed fixture. -/
theorem summaries_silently_omit_witness :
    lookupId 6 skewIdx.by_id = none ∧
    get_summaries_from_ids skewIdx ([5] ++ 6 :: [])
      = get_summaries_from_ids skewIdx ([5] ++ []) :=
  ⟨by decide, summaries_silently_omit.2.1 skewIdx [5] [] 6 (by decide)⟩

-- ===== C3: get_article PIPELINE AND NotFound CONDITION (corrected) =====

/-- C3 (counterexample): id 5 is absent from the current Index, yet
`get_article` succeeds from the cache instead of failing with NotFound —
refuting "fails with NotFound exactly when the id is absent from the
current Index". -/
theorem get_article_notFound_counterexample :
    lookupId 5 c3State.index.by_id = none ∧
    get_article cfgNoSample c3Store c3State 5
      = .ok ((c3Article, .cached), c3State) := by
  constructor <;> rfl

/-- C3 (amended): `get_article` applies the reserved-id sample
short-circuit, then the cache (with LRU promotion), then the Store load
guarded by the Index lookup, populating the cache on a successful miss;
it fails with NotFound exactly when the sample short-circuit does not
apply, the id misses the cache, AND the id is absent from the current
Index. -/
theorem get_article_spec (cfg : Config)
    (store : Metainfo → Except LoadError Article)
    (s : ArticlesState) (id : ArticleId) :
    (get_article cfg store s id = .error (.notFound id) ↔
      (¬(id = 0 ∧ cfg.sample_article = true) ∧
        (s.cache.get id).1 = none ∧ lookupId id s.index.by_id = none)) ∧
    ((id = 0 ∧ cfg.sample_article = true) →
      get_article cfg store s id = .ok ((sampleArticle, .notCached), s)) ∧
    (∀ a c', ¬(id = 0 ∧ cfg.sample_article = true) →
      s.cache.get id = (some a, c') →
      get_article cfg store s id = .ok ((a, .cached), { s with cache := c' })) ∧
    (∀ a, ¬(id = 0 ∧ cfg.sample_article = true) →
      (s.cache.get id).1 = none →
      load_article_from_filesystem cfg store s id = .ok a →
      get_article cfg store s id
        = .ok ((a, .notCached), { s with cache := s.cache.put id a })) := by
  refine ⟨?_, ?_, ?_, ?_⟩
  · by_cases hs : id = 0 ∧ cfg.sample_article = true
    · rw [get_article, if_pos hs]
      simp [hs]
    · rw [get_article, if_neg hs]
      rcases hget : s.cache.get id with ⟨o, c'⟩
      cases o with
      | some a =>
        dsimp only
        constructor
        · intro h; exact absurd h (by simp)
        · rintro ⟨-, h1, -⟩
          exact absurd h1 (by simp)
      | none =>
        dsimp only
        rw [load_article_from_filesystem]
        cases hl : lookupId id s.index.by_id with
        | none =>
          rw [show s.index.get_metainfo id = (none : Option Metainfo) from hl]
          dsimp only
          exact ⟨fun _ => ⟨hs, rfl, rfl⟩, fun _ => rfl⟩
        | some m =>
          rw [show s.index.get_metainfo id = some m from hl]
          dsimp only
          rw [if_neg hs]
          cases hst : store m with
          | ok a =>
            dsimp only
            constructor
            · intro h; exact absurd h (by simp)
            · rintro ⟨-, -, h2⟩
              exact absurd h2 (by simp)
          | error e =>
            dsimp only
            constructor
            · intro h
              injection h with h
              exact absurd h (by simp)
            · rintro ⟨-, -, h2⟩
              exact absurd h2 (by simp)
  · intro hs
    rw [get_article, if_pos hs]
  · intro a c' hs hget
    rw [get_article, if_neg hs, hget]
  · intro a hs h1 h2
    rw [get_article, if_neg hs]
    rcases hget : s.cache.get id with ⟨o, c'⟩
    rw [hget] at h1
    dsimp only at h1
    subst h1
    dsimp only
    rw [h2]

/-- Witness for C3 on the fixture: with the sample disabled, an empty
cache and an empty index, `get_article 9` fails with NotFound. -/
theorem get_article_spec_witness :
    get_article cfgNoSample c3Store
      { index := ArticleIndex.emptyIndex, cache := LruCache.emptyCache 2 } 9
      = .error (.notFound 9) :=
  (get_article_spec cfgNoSample c3Store
    { index := ArticleIndex.emptyIndex, cache := LruCache.emptyCache 2 } 9).1.mpr
    ⟨by decide, by decide, by decide⟩

-- ===== SUPPORTING LEMMAS: OCCURRENCE COUNTING =====

/-- Occurrence count of the head element. -/
lemma occurrences_cons_self {α : Type} [DecidableEq α] (a : α) (l : List α) :
    occurrences a (a :: l) = occurrences a l + 1 := by
  unfold occurrences
  rw [List.countP_cons]
  simp

/-- Occurrence count past a different head. -/
lemma occurrences_cons_of_ne {α : Type} [DecidableEq α] {a b : α}
    (h : b ≠ a) (l : List α) :
    occurrences a (b :: l) = occurrences a l := by
  unfold occurrences
  rw [List.countP_cons]
  simp [h]

/-- Absent elements occur zero times. -/
lemma occurrences_eq_zero {α : Type} [DecidableEq α] {a : α} {l : List α}
    (h : a ∉ l) : occurrences a l = 0 := by
  induction l with
  | nil => rfl
  | cons b rest ih =>
    have hb : b ≠ a := by
      intro hc
      exact h (hc ▸ List.mem_cons_self _ _)
    rw [occurrences_cons_of_ne hb]
    exact ih (fun hc => h (List.mem_cons_of_mem _ hc))

/-- In a duplicate-free list, members occur exactly once. -/
lemma occurrences_eq_one {α : Type} [DecidableEq α] {a : α} {l : List α}
    (d : l.Nodup) (h : a ∈ l) : occurrences a l = 1 := by
  induction l with
  | nil => exact absurd h (by simp)
  | cons b rest ih =>
    rw [List.nodup_cons] at d
    rcases List.mem_cons.mp h with rfl | hmem
    · rw [occurrences_cons_self, occurrences_eq_zero d.1]
    · have hb : b ≠ a := by
        rintro rfl
        exact d.1 hmem
      rw [occurrences_cons_of_ne hb]
      exact ih d.2 hmem

/-- Occurrence counts are invariant under permutation. -/
lemma occurrences_perm {α : Type} [DecidableEq α] (a : α) {l₁ l₂ : List α}
    (h : l₁.Perm l₂) : occurrences a l₁ = occurrences a l₂ :=
  h.countP_eq _

-- ===== SUPPORTING LEMMAS: INDEX ASSOCIATION LISTS =====

/-- Lookup succeeds exactly on the stored keys. -/
lemma lookupId_isSome_iff (id : ArticleId) :
    ∀ l : List (ArticleId × Metainfo),
      (lookupId id l).isSome = true ↔ id ∈ l.map Prod.fst := by
  intro l
  induction l with
  | nil => simp [lookupId]
  | cons e rest ih =>
    obtain ⟨i, m⟩ := e
    unfold lookupId
    by_cases hi : i = id
    · subst hi
      simp
    · rw [if_neg hi, ih]
      simp only [List.map_cons, List.mem_cons]
      constructor
      · exact Or.inr
      · rintro (h | h)
        · exact absurd h.symm hi
        · exact h

/-- Inserting a fresh key appends the entry. -/
lemma insertId_fresh (id : ArticleId) (m : Metainfo) :
    ∀ l : List (ArticleId × Metainfo), id ∉ l.map Prod.fst →
      insertId id m l = l ++ [(id, m)] := by
  intro l
  induction l with
  | nil => intro _; rfl
  | cons e rest ih =>
    obtain ⟨i, m'⟩ := e
    intro h
    simp only [List.map_cons, List.mem_cons] at h
    push_neg at h
    obtain ⟨h1, h2⟩ := h
    unfold insertId
    rw [if_neg (fun hc => h1 hc.symm), ih h2]
    rfl

/-- Effect of one `pushTag` on a `lookupTag` read. -/
lemma lookupTag_pushTag (id : ArticleId) (t t₀ : Str) :
    ∀ bt, lookupTag t₀ (pushTag id t bt)
      = lookupTag t₀ bt ++ (if t₀ = t then [id] else []) := by
  intro bt
  induction bt with
  | nil =>
    rcases eq_or_ne t₀ t with rfl | hne
    · simp [pushTag, lookupTag]
    · simp [pushTag, lookupTag, hne, Ne.symm hne]
  | cons e rest ih =>
    obtain ⟨t', l⟩ := e
    rcases eq_or_ne t' t with rfl | h1
    · rcases eq_or_ne t' t₀ with rfl | h2
      · simp [pushTag, lookupTag]
      · simp [pushTag, lookupTag, h2, Ne.symm h2]
    · rcases eq_or_ne t' t₀ with rfl | h2
      · simp [pushTag, lookupTag, h1, Ne.symm h1]
      · simp [pushTag, lookupTag, h1, h2, ih]

/-- Effect of the tag loop of `add_metainfo` on a `lookupTag` read: one
appended occurrence per occurrence of the tag in the descriptor. -/
lemma lookupTag_foldl_pushTag (id : ArticleId) (t₀ : Str) :
    ∀ (tags : List Str) (bt : List (Str × List ArticleId)),
      lookupTag t₀ (tags.foldl (fun b t => pushTag id t b) bt)
        = lookupTag t₀ bt ++ List.replicate (occurrences t₀ tags) id := by
  intro tags
  induction tags with
  | nil => intro bt; simp [occurrences]
  | cons t rest ih =>
    intro bt
    rw [List.foldl_cons, ih, lookupTag_pushTag]
    rcases eq_or_ne t₀ t with rfl | hne
    · rw [if_pos rfl, occurrences_cons_self, List.append_assoc,
        List.replicate_succ]
      rfl
    · rw [if_neg hne, occurrences_cons_of_ne (Ne.symm hne), List.append_nil]

/-- Effect of `add_metainfo` on a `lookupTag` read, for a descriptor
with duplicate-free tags. -/
lemma lookupTag_add_metainfo (idx : ArticleIndex) (m : Metainfo) (t₀ : Str)
    (h : m.tags.Nodup) :
    lookupTag t₀ (idx.add_metainfo m).by_tag
      = lookupTag t₀ idx.by_tag ++ (if t₀ ∈ m.tags then [m.id] else []) := by
  unfold ArticleIndex.add_metainfo
  dsimp only
  rw [lookupTag_foldl_pushTag]
  congr 1
  by_cases hmem : t₀ ∈ m.tags
  · rw [if_pos hmem, occurrences_eq_one h hmem]
    rfl
  · rw [if_neg hmem, occurrences_eq_zero hmem]
    rfl

/-- Folding `add_metainfo` over descriptors with globally fresh ids
appends the corresponding `by_id` entries in order. -/
lemma foldl_add_by_id :
    ∀ (D : List Metainfo) (idx : ArticleIndex),
      (idx.by_id.map Prod.fst ++ D.map Metainfo.id).Nodup →
      (D.foldl ArticleIndex.add_metainfo idx).by_id
        = idx.by_id ++ D.map (fun m => (m.id, m)) := by
  intro D
  induction D with
  | nil => intro idx _; simp
  | cons m rest ih =>
    intro idx h
    have hfresh : m.id ∉ idx.by_id.map Prod.fst := by
      intro hc
      have hdisj := List.disjoint_of_nodup_append h
      exact hdisj hc (by simp)
    have hid : (idx.add_metainfo m).by_id = idx.by_id ++ [(m.id, m)] := by
      unfold ArticleIndex.add_metainfo
      dsimp only
      rw [insertId_fresh _ _ _ hfresh]
    have h' : ((idx.add_metainfo m).by_id.map Prod.fst
        ++ rest.map Metainfo.id).Nodup := by
      rw [hid, List.map_append, List.append_assoc]
      simpa using h
    rw [List.foldl_cons, ih _ h', hid, List.append_assoc]
    rfl

/-- Folding `add_metainfo` over descriptors with duplicate-free tag
lists appends, per tag, the ids of the descriptors carrying it. -/
lemma foldl_add_by_tag :
    ∀ (D : List Metainfo) (idx : ArticleIndex) (t₀ : Str),
      (∀ m ∈ D, m.tags.Nodup) →
      lookupTag t₀ (D.foldl ArticleIndex.add_metainfo idx).by_tag
        = lookupTag t₀ idx.by_tag
          ++ (D.filter (fun m => decide (t₀ ∈ m.tags))).map Metainfo.id := by
  intro D
  induction D with
  | nil => intro idx t₀ _; simp
  | cons m rest ih =>
    intro idx t₀ h
    rw [List.foldl_cons,
      ih _ _ (fun m' hm' => h m' (List.mem_cons_of_mem _ hm')),
      lookupTag_add_metainfo _ _ _ (h m (List.mem_cons_self _ _)),
      List.filter_cons]
    by_cases hmem : t₀ ∈ m.tags
    · simp [hmem, List.append_assoc]
    · simp [hmem]

/-- Reading a tag list after `sort_indices` sorts the read. -/
lemma lookupTag_sort :
    ∀ (bt : List (Str × List ArticleId)) (t₀ : Str),
      lookupTag t₀ (bt.map (fun e => (e.1, List.insertionSort (· ≤ ·) e.2)))
        = List.insertionSort (· ≤ ·) (lookupTag t₀ bt) := by
  intro bt
  induction bt with
  | nil => intro t₀; rfl
  | cons e rest ih =>
    intro t₀
    obtain ⟨t', l⟩ := e
    simp only [List.map_cons]
    unfold lookupTag
    by_cases h : t' = t₀
    · rw [if_pos h, if_pos h]
    · rw [if_neg h, if_neg h, ih]

/-- Lookup in the association list built from a duplicate-free
descriptor list resolves to a member carrying the looked-up id. -/
lemma lookupId_map_pair :
    ∀ (D : List Metainfo) (id : ArticleId) (m : Metainfo),
      (D.map Metainfo.id).Nodup →
      lookupId id (D.map (fun m => (m.id, m))) = some m →
      m ∈ D ∧ m.id = id := by
  intro D
  induction D with
  | nil => intro id m _ h; exact absurd h (by simp [lookupId])
  | cons m₀ rest ih =>
    intro id m hnd h
    simp only [List.map_cons] at h
    unfold lookupId at h
    by_cases hid : m₀.id = id
    · rw [if_pos hid] at h
      injection h with h
      subst h
      exact ⟨List.mem_cons_self _ _, hid⟩
    · rw [if_neg hid] at h
      have hnd' : (rest.map Metainfo.id).Nodup := by
        simp only [List.map_cons, List.nodup_cons] at hnd
        exact hnd.2
      obtain ⟨hmem, hmid⟩ := ih id m hnd' h
      exact ⟨List.mem_cons_of_mem _ hmem, hmid⟩

/-- With globally unique ids, a descriptor carrying a tag contributes
its id exactly once to that tag's collected id list. -/
lemma count_filter_tag :
    ∀ (D : List Metainfo) (m : Metainfo) (t : Str),
      (D.map Metainfo.id).Nodup → m ∈ D → t ∈ m.tags →
      occurrences m.id
        ((D.filter (fun m' => decide (t ∈ m'.tags))).map Metainfo.id)
        = 1 := by
  intro D
  induction D with
  | nil => intro m t _ hm _; exact absurd hm (by simp)
  | cons m₀ rest ih =>
    intro m t hnd hm ht
    simp only [List.map_cons, List.nodup_cons] at hnd
    obtain ⟨hid0, hndr⟩ := hnd
    rw [List.filter_cons]
    rcases List.mem_cons.mp hm with rfl | hmr
    · rw [if_pos (by simpa using ht), List.map_cons, occurrences_cons_self]
      have hnm : m.id ∉ (rest.filter
          (fun m' => decide (t ∈ m'.tags))).map Metainfo.id := by
        intro hc
        obtain ⟨m', hm', he⟩ := List.mem_map.mp hc
        have hmr' : m' ∈ rest := List.mem_of_mem_filter hm'
        exact hid0 (he ▸ List.mem_map_of_mem _ hmr')
      rw [occurrences_eq_zero hnm]
    · have hcount := ih m t hndr hmr ht
      have hne : m₀.id ≠ m.id := by
        intro hc
        exact hid0 (hc ▸ List.mem_map_of_mem _ hmr)
      by_cases hmem0 : t ∈ m₀.tags
      · rw [if_pos (by simpa using hmem0), List.map_cons,
          occurrences_cons_of_ne hne, hcount]
      · rw [if_neg (by simpa using hmem0), hcount]

/-- Error-free entry lists make `scan_entries` succeed with the fold of
its contributed descriptors. -/
lemma scan_entries_no_error :
    ∀ (entries : List DirEntry) (idx : ArticleIndex),
      (∀ er, DirEntry.errEntry er ∉ entries) →
      scan_entries idx entries
        = (.ok (), (entryItems entries).foldl ArticleIndex.add_metainfo idx) := by
  intro entries
  induction entries with
  | nil => intro idx _; rfl
  | cons e rest ih =>
    intro idx h
    cases e with
    | errEntry er => exact absurd (List.mem_cons_self _ _) (h er)
    | skipped =>
      show scan_entries idx rest = _
      rw [ih idx (fun er hc => h er (List.mem_cons_of_mem _ hc))]
      rfl
    | item m =>
      show scan_entries (idx.add_metainfo m) rest = _
      rw [ih _ (fun er hc => h er (List.mem_cons_of_mem _ hc))]
      rfl

/-- A successful `load_index` produces exactly the `rebuild` of the
optionally injected sample descriptor followed by the scanned
descriptors, so `rebuild` is the pipeline every completed index rebuild
runs. -/
lemma load_index_ok_eq_rebuild (cfg : Config) (entries : List DirEntry)
    (s : ArticlesState) (h : ∀ er, DirEntry.errEntry er ∉ entries) :
    load_index cfg (.ok entries) s
      = (.ok (),
          { s with
              index := rebuild
                ((if cfg.sample_article then [sampleMetainfo] else [])
                  ++ entryItems entries) }) := by
  unfold load_index scan_articles
  dsimp only
  rw [scan_entries_no_error entries _ h]
  unfold rebuild
  rw [List.foldl_append]
  cases hc : cfg.sample_article <;>
    simp [ArticleIndex.clear, hc]

-- ===== C2: REBUILD ESTABLISHES THE INDEX INVARIANT =====

/-- C2: after a completed rebuild with descriptor set `D` (pairwise
distinct ids, duplicate-free tag sets — what "descriptor set" denotes),
`sorted_ids` is strictly ascending (hence duplicate-free) and contains
exactly the keys of `by_id`; and every id whose descriptor carries tag
`T` appears exactly once, in sorted (ascending) position, in
`by_tag[T]`. -/
theorem rebuild_index_invariant (D : List Metainfo)
    (hids : (D.map Metainfo.id).Nodup)
    (htags : ∀ m ∈ D, m.tags.Nodup) :
    (rebuild D).sorted_ids.Sorted (· < ·) ∧
    (∀ id, id ∈ (rebuild D).sorted_ids ↔
      (lookupId id (rebuild D).by_id).isSome = true) ∧
    (∀ id m t, lookupId id (rebuild D).by_id = some m → t ∈ m.tags →
      occurrences id (lookupTag t (rebuild D).by_tag) = 1 ∧
      (lookupTag t (rebuild D).by_tag).Sorted (· < ·)) := by
  have hbyid : (D.foldl ArticleIndex.add_metainfo ArticleIndex.emptyIndex).by_id
      = D.map (fun m => (m.id, m)) := by
    have h := foldl_add_by_id D ArticleIndex.emptyIndex
      (by simpa [ArticleIndex.emptyIndex] using hids)
    simpa [ArticleIndex.emptyIndex] using h
  have hbyid' : (rebuild D).by_id = D.map (fun m => (m.id, m)) := hbyid
  have hkeys : (D.foldl ArticleIndex.add_metainfo
      ArticleIndex.emptyIndex).by_id.map Prod.fst = D.map Metainfo.id := by
    rw [hbyid, List.map_map]
    rfl
  have hsid : (rebuild D).sorted_ids
      = List.insertionSort (· ≤ ·) (D.map Metainfo.id) := by
    unfold rebuild ArticleIndex.sort_indices
    dsimp only
    rw [hkeys]
  have hperm : (List.insertionSort (· ≤ ·) (D.map Metainfo.id)).Perm
      (D.map Metainfo.id) := List.perm_insertionSort _ _
  refine ⟨?_, ?_, ?_⟩
  · rw [hsid]
    exact (List.sorted_insertionSort _ _).lt_of_le (hperm.nodup_iff.mpr hids)
  · intro id
    rw [hsid, lookupId_isSome_iff, hbyid', List.map_map]
    exact hperm.mem_iff
  · intro id m t hlk ht
    rw [hbyid'] at hlk
    obtain ⟨hmD, hmid⟩ := lookupId_map_pair D id m hids hlk
    have hbt : lookupTag t (rebuild D).by_tag
        = List.insertionSort (· ≤ ·)
            ((D.filter (fun m' => decide (t ∈ m'.tags))).map Metainfo.id) := by
      unfold rebuild ArticleIndex.sort_indices
      dsimp only
      rw [lookupTag_sort, foldl_add_by_tag D _ t htags]
      rfl
    have hpermL : (List.insertionSort (· ≤ ·)
        ((D.filter (fun m' => decide (t ∈ m'.tags))).map Metainfo.id)).Perm
        ((D.filter (fun m' => decide (t ∈ m'.tags))).map Metainfo.id) :=
      List.perm_insertionSort _ _
    have hndL : ((D.filter (fun m' => decide (t ∈ m'.tags))).map
        Metainfo.id).Nodup := by
      have hsub : List.Sublist
          ((D.filter (fun m' => decide (t ∈ m'.tags))).map Metainfo.id)
          (D.map Metainfo.id) := (List.filter_sublist _).map _
      exact hids.sublist hsub
    subst hmid
    constructor
    · rw [hbt, occurrences_perm _ hpermL]
      exact count_filter_tag D m t hids hmD ht
    · rw [hbt]
      exact (List.sorted_insertionSort _ _).lt_of_le
        (hpermL.nodup_iff.mpr hndL)

/-- Witness for C2 on the two-descriptor fixture. -/
theorem rebuild_index_invariant_witness :
    (([wMeta1, wMeta2].map Metainfo.id).Nodup ∧
      ∀ m ∈ [wMeta1, wMeta2], m.tags.Nodup) ∧
    (rebuild [wMeta1, wMeta2]).sorted_ids.Sorted (· < ·) :=
  ⟨⟨by decide, by decide⟩,
    (rebuild_index_invariant [wMeta1, wMeta2] (by decide) (by decide)).1⟩

end Henkaiki
